import Mathlib

/-!
A shallow embedding of the rcpp refinement-types library (C++ headers
`rcpp/predicates.hpp`, `rcpp/operations.hpp`, `refinery/interval.hpp`,
`refinery/refined_container.hpp`) and proofs about it.

Machine integers of a signed integral base type of width `w` are modelled
as `Int` together with an explicit two's-complement wrap `wrap w`, and a
representable range `[MIN, MAX]`.  C++ truncating division `/` on `int`
is `Int.tdiv`, C++ `%` is `Int.tmod`.  Exceptions become `Except`,
`std::optional` becomes `Option`.  Floating-point operands of the
interval operators are modelled by exact rationals (the branch structure
and absence of overflow checks is what the corresponding claim is about;
rounding is not modelled).
-/

namespace RcppModel

/-! ### Predicates (`rcpp/predicates.hpp`), instantiated at an integral base type -/

/-- C++ source: `Positive = [](auto v) { return v > decltype(v){0}; }` -/
def Positive (v : Int) : Bool := v > 0

/-- C++ source: `NonNegative = [](auto v) { return v >= decltype(v){0}; }` -/
def NonNegative (v : Int) : Bool := v ≥ 0

/-- C++ source: `NonZero = [](auto v) { return v != decltype(v){0}; }` -/
def NonZero (v : Int) : Bool := v ≠ 0

/-! ### Two's-complement machine arithmetic -/

/-- Two's-complement wrap of an integer to a signed width-`w` value:
the value of the C++ (wrap-around) result of an operation on a signed
integral type of width `w`. -/
def wrap (w : Nat) (x : Int) : Int := (x + 2 ^ (w - 1)) % 2 ^ w - 2 ^ (w - 1)

/-- C++ source: `std::numeric_limits<int32_t>::min()` -/
def i32min : Int := -(2 ^ 31)

/-- C++ source: `std::numeric_limits<int32_t>::max()` -/
def i32max : Int := 2 ^ 31 - 1

/-! ### The preservation fact table (`rcpp/operations.hpp`, `traits::preserves`) -/

/-- Type-level key for the predicates appearing in the fact table. -/
inductive PredKey where
  | positive
  | nonNegative
  | nonZero
deriving DecidableEq

/-- Type-level key for the `std::plus<>` / `std::multiplies<>` / `std::minus<>`
operator tags used to index the fact table. -/
inductive OpKey where
  | plus
  | multiplies
  | minus
deriving DecidableEq

/-- The `traits::preserves<Pred, Op>::value` table: `false` by default,
with exactly the four explicit specializations from `operations.hpp`. -/
def preserves : PredKey → OpKey → Bool
  | .positive, .plus => true
  | .positive, .multiplies => true
  | .nonNegative, .plus => true
  | .nonNegative, .multiplies => true
  | _, _ => false

/-- Semantics of a predicate key as the corresponding predicate. -/
def predApply : PredKey → Int → Bool
  | .positive, v => Positive v
  | .nonNegative, v => NonNegative v
  | .nonZero, v => NonZero v

/-- Semantics of an operator key: the mathematical (unwrapped) result of
`Op{}(a, b)`. -/
def opApply : OpKey → Int → Int → Int
  | .plus, a, b => a + b
  | .multiplies, a, b => a * b
  | .minus, a, b => a - b

/-- Modelled from the spec: `tryRefine(value)` of the Constrained Value
wrapper (header `rcpp/refined.hpp`, not present in the sources) — a
non-raising constructor returning an empty optional when the predicate
fails, the wrapped value otherwise. -/
def try_refine (P : Int → Bool) (v : Int) : Option Int :=
  if P v then some v else none

/-- C++ source: `refined_binop` from `operations.hpp` on a width-`w` signed integral
base type: computes the raw (wrap-around) result `op(lhs.get(), rhs.get())`;
if the fact table registers `(Pred, Op)` as preserving, the result is
returned as a trusted value without re-checking (always `some`),
otherwise it goes through `try_refine`. -/
def refined_binop (w : Nat) (pk : PredKey) (opk : OpKey) (a b : Int) : Option Int :=
  let result := wrap w (opApply opk a b)
  if preserves pk opk then some result
  else try_refine (predApply pk) result

/-! ### Error model (`refinement_error` from `refinery/refined_type.hpp`) -/

/-- The kinds of error a C++ caller could distinguish by exception type.
The spec posits a distinct `ArithmeticOverflow` kind, so the model has a
constructor for it; the embedded code below only ever constructs
`refinementError`, because every `throw` in the sources constructs the
single exception type `refinement_error`. -/
inductive ErrKind where
  | refinementError
  | arithmeticOverflow
deriving DecidableEq

/-- An exception value: its type (kind) and its `what()` message. -/
structure CppError where
  kind : ErrKind
  msg : String
deriving DecidableEq

/-- C++ source: `refinement_error(msg)` — the one exception type thrown anywhere in
the sources (`refinery/interval.hpp` throws it on overflow, and the
tests catch it for predicate violations). -/
def refinement_error (msg : String) : CppError :=
  ⟨ErrKind.refinementError, msg⟩

/-- Modelled from the spec: checked runtime construction
(`Refined(value, runtime_check)`, header `refinery/refined_type.hpp`,
not present in the sources) — evaluates the predicate once and raises a
`refinement_error` (the tests catch exactly this type) when it fails. -/
def runtime_check (P : Int → Bool) (v : Int) : Except CppError Int :=
  if P v then .ok v else .error (refinement_error "refinement violation")

/-! ### Saturating bound arithmetic (`refinery/interval.hpp`, `detail::sat_*`,
integral branch), parametric in the representable range `[MIN, MAX]` -/

/-- C++ source: `detail::sat_add` (integral branch). -/
def sat_add (MIN MAX a b : Int) : Int :=
  if b > 0 ∧ a > MAX - b then MAX
  else if b < 0 ∧ a < MIN - b then MIN
  else a + b

/-- C++ source: `detail::sat_sub` (integral branch). -/
def sat_sub (MIN MAX a b : Int) : Int :=
  if b < 0 ∧ a > MAX + b then MAX
  else if b > 0 ∧ a < MIN + b then MIN
  else a - b

/-- C++ source: `detail::sat_mul` (integral branch); C++ `/` on signed integers is
truncating division `Int.tdiv`. -/
def sat_mul (MIN MAX a b : Int) : Int :=
  if a = 0 ∨ b = 0 then 0
  else if a > 0 then
    if b > 0 then
      if a > Int.tdiv MAX b then MAX else a * b
    else
      if b < Int.tdiv MIN a then MIN else a * b
  else
    if b > 0 then
      if a < Int.tdiv MIN b then MIN else a * b
    else
      if a < Int.tdiv MAX b then MAX else a * b

/-- C++ source: `detail::sat_neg` (integral branch). -/
def sat_neg (MIN MAX a : Int) : Int :=
  if a = MIN then MAX else -a

/-! ### Checked value-level arithmetic (`refinery/interval.hpp`, `detail::checked_*`) -/

/-- C++ source: `detail::checked_add` — throws `refinement_error` on overflow. -/
def checked_add (MIN MAX a b : Int) : Except CppError Int :=
  if b > 0 ∧ a > MAX - b then .error (refinement_error "integer overflow in addition")
  else if b < 0 ∧ a < MIN - b then .error (refinement_error "integer underflow in addition")
  else .ok (a + b)

/-- C++ source: `detail::checked_sub` — throws `refinement_error` on overflow. -/
def checked_sub (MIN MAX a b : Int) : Except CppError Int :=
  if b < 0 ∧ a > MAX + b then .error (refinement_error "integer overflow in subtraction")
  else if b > 0 ∧ a < MIN + b then .error (refinement_error "integer underflow in subtraction")
  else .ok (a - b)

/-- C++ source: `detail::checked_mul` — throws `refinement_error` on overflow. -/
def checked_mul (MIN MAX a b : Int) : Except CppError Int :=
  if a = 0 ∨ b = 0 then .ok 0
  else if a > 0 then
    if b > 0 then
      if a > Int.tdiv MAX b then .error (refinement_error "integer overflow in multiplication")
      else .ok (a * b)
    else
      if b < Int.tdiv MIN a then .error (refinement_error "integer underflow in multiplication")
      else .ok (a * b)
  else
    if b > 0 then
      if a < Int.tdiv MIN b then .error (refinement_error "integer underflow in multiplication")
      else .ok (a * b)
    else
      if a < Int.tdiv MAX b then .error (refinement_error "integer overflow in multiplication")
      else .ok (a * b)

/-! ### Interval predicates and bound propagation (`refinery/interval.hpp`) -/

/-- A (reified) `Interval<Lo, Hi>` predicate tag. -/
structure IntervalP where
  lo : Int
  hi : Int
deriving DecidableEq

/-- C++ source: `Interval<Lo, Hi>::operator()(v) = v >= Lo && v <= Hi`. -/
def IntervalP.app (I : IntervalP) (v : Int) : Bool :=
  decide (v ≥ I.lo) && decide (v ≤ I.hi)

/-- Membership of a value in an interval, as a proposition. -/
def IntervalP.mem (I : IntervalP) (v : Int) : Prop :=
  I.lo ≤ v ∧ v ≤ I.hi

instance (I : IntervalP) (v : Int) : Decidable (I.mem v) :=
  inferInstanceAs (Decidable (_ ∧ _))

/-- C++ source: `detail::ct_min<A, B>() = A < B ? A : B`. -/
def ct_min (a b : Int) : Int := if a < b then a else b

/-- C++ source: `detail::ct_max<A, B>() = A > B ? A : B`. -/
def ct_max (a b : Int) : Int := if a > b then a else b

/-- C++ source: `detail::min4`. -/
def min4 (a b c d : Int) : Int := ct_min (ct_min a b) (ct_min c d)

/-- C++ source: `detail::max4`. -/
def max4 (a b c d : Int) : Int := ct_max (ct_max a b) (ct_max c d)

/-- C++ source: `interval_math::add_intervals`. -/
def add_intervals (MIN MAX : Int) (I J : IntervalP) : IntervalP :=
  ⟨sat_add MIN MAX I.lo J.lo, sat_add MIN MAX I.hi J.hi⟩

/-- C++ source: `interval_math::sub_intervals`. -/
def sub_intervals (MIN MAX : Int) (I J : IntervalP) : IntervalP :=
  ⟨sat_sub MIN MAX I.lo J.hi, sat_sub MIN MAX I.hi J.lo⟩

/-- C++ source: `interval_math::mul_intervals`. -/
def mul_intervals (MIN MAX : Int) (I J : IntervalP) : IntervalP :=
  let ac := sat_mul MIN MAX I.lo J.lo
  let ad := sat_mul MIN MAX I.lo J.hi
  let bc := sat_mul MIN MAX I.hi J.lo
  let bd := sat_mul MIN MAX I.hi J.hi
  ⟨min4 ac ad bc bd, max4 ac ad bc bd⟩

/-- C++ source: `interval_math::negate_interval`. -/
def negate_interval (MIN MAX : Int) (I : IntervalP) : IntervalP :=
  ⟨sat_neg MIN MAX I.hi, sat_neg MIN MAX I.lo⟩

/-- Value computation of the interval `operator-` (unary) for an
integral base type: `detail::checked_sub(T{0}, val.get())`. -/
def interval_neg_value (MIN MAX a : Int) : Except CppError Int :=
  checked_sub MIN MAX 0 a

/-! ### Division and modulo on refined operands (`rcpp/operations.hpp`) -/

/-- C++ integer division: undefined behaviour (`none`) when the divisor
is zero, otherwise the truncating quotient. -/
def cppDiv (n d : Int) : Option Int :=
  if d = 0 then none else some (Int.tdiv n d)

/-- C++ integer remainder: undefined behaviour (`none`) when the divisor
is zero, otherwise the truncating remainder. -/
def cppMod (n d : Int) : Option Int :=
  if d = 0 then none else some (Int.tmod n d)

/-- C++ source: `operator/(Refined<T,NumPred>, Refined<T,DenomPred>)`: the operator's
`requires` clause only demands that `DenomPred` is testable on `T`, so any
refined denominator is accepted; the body divides the raw values and
returns a plain, unrefined base value. -/
def div_op (_NumPred _DenomPred : Int → Bool) (n d : Int) : Option Int :=
  cppDiv n d

/-- C++ source: `operator%(Refined<T,NumPred>, Refined<T,DivPred>)`. -/
def mod_op (_NumPred _DivPred : Int → Bool) (n d : Int) : Option Int :=
  cppMod n d

/-- C++ source: `safe_divide(T, Refined<T, NonZero>)` — the parameter type enforces
the `NonZero` refinement on the divisor. -/
def safe_divide (n d : Int) : Option Int :=
  cppDiv n d

/-- C++ source: `safe_modulo(T, Refined<T, NonZero>)`. -/
def safe_modulo (n d : Int) : Option Int :=
  cppMod n d

/-! ### `abs` and `square` (`rcpp/operations.hpp`) on a width-`w` signed type -/

/-- C++ source: `abs(T value) = value < 0 ? -value : value`, stored into
`Refined<T, NonNegative>` with `assume_valid` (no check); the negation
wraps at the type's minimum. -/
def absImpl (w : Nat) (v : Int) : Int :=
  wrap w (if v < 0 then -v else v)

/-- C++ source: `square(T value) = value * value`, stored into
`Refined<T, NonNegative>` with `assume_valid` (no check); the product
wraps on overflow. -/
def squareImpl (w : Nat) (v : Int) : Int :=
  wrap w (v * v)

/-! ### Floating-point branch of the interval subsystem, over exact rationals -/

/-- C++ source: `detail::sat_add` (floating-point branch), with `mx` standing for
`std::numeric_limits<T>::max()`. -/
def fsat_add (mx a b : ℚ) : ℚ :=
  if a > 0 ∧ b > 0 ∧ a > mx - b then mx
  else if a < 0 ∧ b < 0 ∧ a < -mx - b then -mx
  else a + b

/-- A reified floating-point `Interval<Lo, Hi>` tag. -/
structure QInterval where
  lo : ℚ
  hi : ℚ
deriving DecidableEq

/-- C++ source: `interval_math::add_intervals` for a floating-point base type. -/
def fadd_intervals (mx : ℚ) (I J : QInterval) : QInterval :=
  ⟨fsat_add mx I.lo J.lo, fsat_add mx I.hi J.hi⟩

/-- Value computation of interval `operator+` for a non-integral base
type: the `else` branch `lhs.get() + rhs.get()` contains no overflow
check and no throw. -/
def fp_add_value (a b : ℚ) : Except CppError ℚ := .ok (a + b)

/-- Value computation of interval `operator-` (binary) for a
non-integral base type. -/
def fp_sub_value (a b : ℚ) : Except CppError ℚ := .ok (a - b)

/-- Value computation of interval `operator*` for a non-integral base
type. -/
def fp_mul_value (a b : ℚ) : Except CppError ℚ := .ok (a * b)

/-- Value computation of interval unary `operator-` for a non-integral
base type: `-val.get()`. -/
def fp_neg_value (a : ℚ) : Except CppError ℚ := .ok (-a)

/-! ### SizeInterval (`refinery/refined_container.hpp`) -/

/-- C++ source: `std::numeric_limits<std::size_t>::max()` for 64-bit `size_t`. -/
def SIZE_MAX : Nat := 2 ^ 64 - 1

/-- C++ source: `static_cast<std::size_t>(s)`: conversion to `size_t` is reduction
modulo `2^64`. -/
def to_size_t (s : Int) : Nat := (s % (2 ^ 64 : Int)).toNat

/-- C++ source: `SizeInterval<Lo, Hi>::operator()(s)`:
`static_cast<size_t>(s) >= Lo && static_cast<size_t>(s) <= Hi`. -/
def SizeIntervalApp (Lo Hi : Nat) (s : Int) : Bool :=
  decide (to_size_t s ≥ Lo) && decide (to_size_t s ≤ Hi)

/-- C++ source: `SizeInterval<Lo>` with the defaulted upper template argument
`Hi = std::numeric_limits<std::size_t>::max()`. -/
def SizeIntervalDefault (Lo : Nat) (s : Int) : Bool :=
  SizeIntervalApp Lo SIZE_MAX s

/-! ### Helper notions and lemmas -/

/-- Clamping a mathematical value into the representable range; the
common meaning of all four `sat_*` functions. -/
def clamp (MIN MAX x : Int) : Int := max MIN (min MAX x)

lemma clamp_le_of_le {MIN MAX x y : Int} (hyx : y ≤ x) (hx : MIN ≤ x) :
    clamp MIN MAX y ≤ x := by
  simp only [clamp, min_def, max_def]
  split_ifs <;> omega

lemma le_clamp_of_le {MIN MAX x z : Int} (hxz : x ≤ z) (hx : x ≤ MAX) :
    x ≤ clamp MIN MAX z := by
  simp only [clamp, min_def, max_def]
  split_ifs <;> omega

lemma clamp_min_distrib (MIN MAX x y : Int) :
    clamp MIN MAX (min x y) = min (clamp MIN MAX x) (clamp MIN MAX y) := by
  simp only [clamp, min_def, max_def]
  split_ifs <;> omega

lemma clamp_max_distrib (MIN MAX x y : Int) :
    clamp MIN MAX (max x y) = max (clamp MIN MAX x) (clamp MIN MAX y) := by
  simp only [clamp, min_def, max_def]
  split_ifs <;> omega

lemma ct_min_eq (a b : Int) : ct_min a b = min a b := by
  simp only [ct_min, min_def]
  split_ifs <;> omega

lemma ct_max_eq (a b : Int) : ct_max a b = max a b := by
  simp only [ct_max, max_def]
  split_ifs <;> omega

lemma min4_eq (a b c d : Int) : min4 a b c d = min (min a b) (min c d) := by
  simp only [min4, ct_min_eq]

lemma max4_eq (a b c d : Int) : max4 a b c d = max (max a b) (max c d) := by
  simp only [max4, ct_max_eq]

lemma clamp_min4 (MIN MAX a b c d : Int) :
    min4 (clamp MIN MAX a) (clamp MIN MAX b) (clamp MIN MAX c) (clamp MIN MAX d)
      = clamp MIN MAX (min (min a b) (min c d)) := by
  simp only [min4_eq, clamp_min_distrib]

lemma clamp_max4 (MIN MAX a b c d : Int) :
    max4 (clamp MIN MAX a) (clamp MIN MAX b) (clamp MIN MAX c) (clamp MIN MAX d)
      = clamp MIN MAX (max (max a b) (max c d)) := by
  simp only [max4_eq, clamp_max_distrib]

lemma wrap_eq_self {w : Nat} (hw : 1 ≤ w) {x : Int}
    (h1 : -(2 ^ (w - 1)) ≤ x) (h2 : x < 2 ^ (w - 1)) : wrap w x = x := by
  have hsplit : (2 : Int) ^ w = (2 : Int) ^ (w - 1) * 2 := by
    have hw1 : w - 1 + 1 = w := by omega
    calc (2 : Int) ^ w = (2 : Int) ^ (w - 1 + 1) := by rw [hw1]
    _ = (2 : Int) ^ (w - 1) * 2 := by rw [pow_succ]
  have hmod : (x + 2 ^ (w - 1)) % 2 ^ w = x + 2 ^ (w - 1) := by
    apply Int.emod_eq_of_lt (by omega) (by omega)
  simp only [wrap, hmod]
  omega

/-- The function `sat_add` is exactly clamping the mathematical sum when the first
operand is representable. -/
lemma sat_add_eq_clamp {MIN MAX a : Int} (ha : MIN ≤ a) (ha' : a ≤ MAX)
    (b : Int) : sat_add MIN MAX a b = clamp MIN MAX (a + b) := by
  simp only [sat_add, clamp, min_def, max_def]
  split_ifs <;> omega

/-- The function `sat_sub` is exactly clamping the mathematical difference when the
first operand is representable. -/
lemma sat_sub_eq_clamp {MIN MAX a : Int} (ha : MIN ≤ a) (ha' : a ≤ MAX)
    (b : Int) : sat_sub MIN MAX a b = clamp MIN MAX (a - b) := by
  simp only [sat_sub, clamp, min_def, max_def]
  split_ifs <;> omega

/-- The function `sat_neg` is exactly clamping the mathematical negation on a
two's-complement range `MIN = -MAX - 1`. -/
lemma sat_neg_eq_clamp {MIN MAX a : Int} (hTC : MIN = -MAX - 1)
    (ha : MIN ≤ a) (ha' : a ≤ MAX) : sat_neg MIN MAX a = clamp MIN MAX (-a) := by
  simp only [sat_neg, clamp, min_def, max_def]
  split_ifs <;> omega

/-- Full characterization of `checked_add` for a representable first
operand: it returns the exact sum, or raises exactly when the sum leaves
the representable range. -/
lemma checked_add_eq {MIN MAX a : Int} (ha : MIN ≤ a) (ha' : a ≤ MAX)
    (b : Int) :
    checked_add MIN MAX a b =
      if MAX < a + b then .error (refinement_error "integer overflow in addition")
      else if a + b < MIN then .error (refinement_error "integer underflow in addition")
      else .ok (a + b) := by
  simp only [checked_add]
  split_ifs <;> first | rfl | omega

/-- Full characterization of `checked_sub` for a representable first
operand. -/
lemma checked_sub_eq {MIN MAX a : Int} (ha : MIN ≤ a) (ha' : a ≤ MAX)
    (b : Int) :
    checked_sub MIN MAX a b =
      if MAX < a - b then .error (refinement_error "integer overflow in subtraction")
      else if a - b < MIN then .error (refinement_error "integer underflow in subtraction")
      else .ok (a - b) := by
  simp only [checked_sub]
  split_ifs <;> first | rfl | omega

/-- For `0 ≤ M` and `0 < b`, the C++ overflow test `a > M / b` is
exactly `a * b > M`. -/
lemma tdiv_lt_iff_of_nonneg {M b a : Int} (hM : 0 ≤ M) (hb : 0 < b) :
    Int.tdiv M b < a ↔ M < a * b := by
  rw [Int.tdiv_eq_ediv hM hb.le]
  constructor
  · intro h
    by_contra hc
    push_neg at hc
    have := (Int.le_ediv_iff_mul_le hb).mpr hc
    omega
  · intro h
    by_contra hc
    push_neg at hc
    have := (Int.le_ediv_iff_mul_le hb).mp hc
    omega

/-- For `m ≤ 0` and `0 < b`, the C++ underflow test `a < m / b` is
exactly `b * a < m`. -/
lemma lt_tdiv_iff_of_nonpos {m b a : Int} (hm : m ≤ 0) (hb : 0 < b) :
    a < Int.tdiv m b ↔ b * a < m := by
  have hneg : Int.tdiv m b = -Int.tdiv (-m) b := by
    rw [← Int.neg_tdiv, neg_neg]
  rw [hneg, Int.tdiv_eq_ediv (by omega) hb.le]
  constructor
  · intro h
    have h1 : (-m) / b < -a := by omega
    have := (Int.ediv_lt_iff_lt_mul hb).mp h1
    nlinarith
  · intro h
    have h1 : -m < -a * b := by nlinarith
    have := (Int.ediv_lt_iff_lt_mul hb).mpr h1
    omega

/-- For `0 ≤ M` and `b < 0`, the C++ overflow test `a < M / b` is
exactly `a * b > M`. -/
lemma lt_tdiv_iff_of_neg {M b a : Int} (hM : 0 ≤ M) (hb : b < 0) :
    a < Int.tdiv M b ↔ M < a * b := by
  have hneg : Int.tdiv M b = -Int.tdiv M (-b) := by
    rw [← Int.tdiv_neg, neg_neg]
  have hb' : 0 < -b := by omega
  rw [hneg, Int.tdiv_eq_ediv hM hb'.le]
  constructor
  · intro h
    have h1 : M / (-b) < -a := by omega
    have := (Int.ediv_lt_iff_lt_mul hb').mp h1
    nlinarith
  · intro h
    have h1 : M < -a * -b := by nlinarith
    have := (Int.ediv_lt_iff_lt_mul hb').mpr h1
    omega

/-- The function `sat_mul` is exactly clamping the mathematical product. -/
lemma sat_mul_eq_clamp {MIN MAX : Int} (hmin : MIN < 0) (hmax : 0 < MAX)
    (a b : Int) : sat_mul MIN MAX a b = clamp MIN MAX (a * b) := by
  rcases eq_or_ne a 0 with ha0 | ha0
  · subst ha0
    rw [sat_mul, if_pos (Or.inl rfl)]
    simp only [clamp, zero_mul, min_def, max_def]
    split_ifs <;> omega
  rcases eq_or_ne b 0 with hb0 | hb0
  · subst hb0
    rw [sat_mul, if_pos (Or.inr rfl)]
    simp only [clamp, mul_zero, min_def, max_def]
    split_ifs <;> omega
  have hcase : ¬(a = 0 ∨ b = 0) := by tauto
  rcases lt_or_gt_of_ne ha0 with haneg | hapos
  · rcases lt_or_gt_of_ne hb0 with hbneg | hbpos
    · -- a < 0, b < 0: product positive, only overflow possible
      have hab : 0 < a * b := mul_pos_of_neg_of_neg haneg hbneg
      have hiff := lt_tdiv_iff_of_neg (M := MAX) (b := b) (a := a) hmax.le hbneg
      simp only [sat_mul, if_neg hcase, if_neg (by omega : ¬a > 0),
        if_neg (by omega : ¬b > 0), hiff, clamp, min_def, max_def]
      generalize a * b = p at hab ⊢
      split_ifs <;> omega
    · -- a < 0, b > 0: product nonpositive, only underflow possible
      have hab : a * b < 0 := mul_neg_of_neg_of_pos haneg hbpos
      have hiff := lt_tdiv_iff_of_nonpos (m := MIN) (b := b) (a := a) hmin.le hbpos
      simp only [sat_mul, if_neg hcase, if_neg (by omega : ¬a > 0),
        if_pos (by omega : b > 0), hiff, mul_comm b a, clamp, min_def, max_def]
      generalize a * b = p at hab ⊢
      split_ifs <;> omega
  · rcases lt_or_gt_of_ne hb0 with hbneg | hbpos
    · -- a > 0, b < 0: product nonpositive, only underflow possible
      have hab : a * b < 0 := mul_neg_of_pos_of_neg hapos hbneg
      have hiff := lt_tdiv_iff_of_nonpos (m := MIN) (b := a) (a := b) hmin.le hapos
      simp only [sat_mul, if_neg hcase, if_pos (by omega : a > 0),
        if_neg (by omega : ¬b > 0), hiff, clamp, min_def, max_def]
      generalize a * b = p at hab ⊢
      split_ifs <;> omega
    · -- a > 0, b > 0: product positive, only overflow possible
      have hab : 0 < a * b := mul_pos hapos hbpos
      have hiff := tdiv_lt_iff_of_nonneg (M := MAX) (b := b) (a := a) hmax.le hbpos
      simp only [sat_mul, if_neg hcase, if_pos (by omega : a > 0),
        if_pos (by omega : b > 0), hiff, clamp, min_def, max_def]
      generalize a * b = p at hab ⊢
      split_ifs <;> omega

/-- Full characterization of `checked_mul`: it returns the exact
product, or raises exactly when the product leaves the representable
range. -/
lemma checked_mul_eq {MIN MAX : Int} (hmin : MIN < 0) (hmax : 0 < MAX)
    (a b : Int) :
    checked_mul MIN MAX a b =
      if MAX < a * b then .error (refinement_error "integer overflow in multiplication")
      else if a * b < MIN then .error (refinement_error "integer underflow in multiplication")
      else .ok (a * b) := by
  rcases eq_or_ne a 0 with ha0 | ha0
  · subst ha0
    rw [checked_mul, if_pos (Or.inl rfl)]
    simp only [zero_mul]
    split_ifs <;> first | rfl | omega
  rcases eq_or_ne b 0 with hb0 | hb0
  · subst hb0
    rw [checked_mul, if_pos (Or.inr rfl)]
    simp only [mul_zero]
    split_ifs <;> first | rfl | omega
  have hcase : ¬(a = 0 ∨ b = 0) := by tauto
  rcases lt_or_gt_of_ne ha0 with haneg | hapos
  · rcases lt_or_gt_of_ne hb0 with hbneg | hbpos
    · have hab : 0 < a * b := mul_pos_of_neg_of_neg haneg hbneg
      have hiff := lt_tdiv_iff_of_neg (M := MAX) (b := b) (a := a) hmax.le hbneg
      simp only [checked_mul, if_neg hcase, if_neg (by omega : ¬a > 0),
        if_neg (by omega : ¬b > 0), hiff]
      generalize a * b = p at hab ⊢
      split_ifs <;> first | rfl | omega
    · have hab : a * b < 0 := mul_neg_of_neg_of_pos haneg hbpos
      have hiff := lt_tdiv_iff_of_nonpos (m := MIN) (b := b) (a := a) hmin.le hbpos
      simp only [checked_mul, if_neg hcase, if_neg (by omega : ¬a > 0),
        if_pos (by omega : b > 0), hiff, mul_comm b a]
      generalize a * b = p at hab ⊢
      split_ifs <;> first | rfl | omega
  · rcases lt_or_gt_of_ne hb0 with hbneg | hbpos
    · have hab : a * b < 0 := mul_neg_of_pos_of_neg hapos hbneg
      have hiff := lt_tdiv_iff_of_nonpos (m := MIN) (b := a) (a := b) hmin.le hapos
      simp only [checked_mul, if_neg hcase, if_pos (by omega : a > 0),
        if_neg (by omega : ¬b > 0), hiff]
      generalize a * b = p at hab ⊢
      split_ifs <;> first | rfl | omega
    · have hab : 0 < a * b := mul_pos hapos hbpos
      have hiff := tdiv_lt_iff_of_nonneg (M := MAX) (b := b) (a := a) hmax.le hbpos
      simp only [checked_mul, if_neg hcase, if_pos (by omega : a > 0),
        if_pos (by omega : b > 0), hiff]
      generalize a * b = p at hab ⊢
      split_ifs <;> first | rfl | omega

/-- The product of values in a box is bounded below by the least corner
product of the box. -/
lemma min_corners_le_mul {l1 u1 l2 u2 a b : Int}
    (h1 : l1 ≤ a) (h2 : a ≤ u1) (h3 : l2 ≤ b) (h4 : b ≤ u2) :
    min (min (l1 * l2) (l1 * u2)) (min (u1 * l2) (u1 * u2)) ≤ a * b := by
  rcases le_or_lt 0 b with hb | hb
  · have hstep : l1 * b ≤ a * b := mul_le_mul_of_nonneg_right h1 hb
    rcases le_or_lt 0 l1 with hl | hl
    · have hc : l1 * l2 ≤ l1 * b := mul_le_mul_of_nonneg_left h3 hl
      calc min (min (l1 * l2) (l1 * u2)) (min (u1 * l2) (u1 * u2))
          ≤ min (l1 * l2) (l1 * u2) := min_le_left _ _
        _ ≤ l1 * l2 := min_le_left _ _
        _ ≤ a * b := le_trans hc hstep
    · have hc : l1 * u2 ≤ l1 * b := mul_le_mul_of_nonpos_left h4 hl.le
      calc min (min (l1 * l2) (l1 * u2)) (min (u1 * l2) (u1 * u2))
          ≤ min (l1 * l2) (l1 * u2) := min_le_left _ _
        _ ≤ l1 * u2 := min_le_right _ _
        _ ≤ a * b := le_trans hc hstep
  · have hstep : u1 * b ≤ a * b := mul_le_mul_of_nonpos_right h2 hb.le
    rcases le_or_lt 0 u1 with hu | hu
    · have hc : u1 * l2 ≤ u1 * b := mul_le_mul_of_nonneg_left h3 hu
      calc min (min (l1 * l2) (l1 * u2)) (min (u1 * l2) (u1 * u2))
          ≤ min (u1 * l2) (u1 * u2) := min_le_right _ _
        _ ≤ u1 * l2 := min_le_left _ _
        _ ≤ a * b := le_trans hc hstep
    · have hc : u1 * u2 ≤ u1 * b := mul_le_mul_of_nonpos_left h4 hu.le
      calc min (min (l1 * l2) (l1 * u2)) (min (u1 * l2) (u1 * u2))
          ≤ min (u1 * l2) (u1 * u2) := min_le_right _ _
        _ ≤ u1 * u2 := min_le_right _ _
        _ ≤ a * b := le_trans hc hstep

/-- The product of values in a box is bounded above by the greatest
corner product of the box. -/
lemma mul_le_max_corners {l1 u1 l2 u2 a b : Int}
    (h1 : l1 ≤ a) (h2 : a ≤ u1) (h3 : l2 ≤ b) (h4 : b ≤ u2) :
    a * b ≤ max (max (l1 * l2) (l1 * u2)) (max (u1 * l2) (u1 * u2)) := by
  rcases le_or_lt 0 b with hb | hb
  · have hstep : a * b ≤ u1 * b := mul_le_mul_of_nonneg_right h2 hb
    rcases le_or_lt 0 u1 with hu | hu
    · have hc : u1 * b ≤ u1 * u2 := mul_le_mul_of_nonneg_left h4 hu
      calc a * b ≤ u1 * u2 := le_trans hstep hc
        _ ≤ max (u1 * l2) (u1 * u2) := le_max_right _ _
        _ ≤ max (max (l1 * l2) (l1 * u2)) (max (u1 * l2) (u1 * u2)) := le_max_right _ _
    · have hc : u1 * b ≤ u1 * l2 := mul_le_mul_of_nonpos_left h3 hu.le
      calc a * b ≤ u1 * l2 := le_trans hstep hc
        _ ≤ max (u1 * l2) (u1 * u2) := le_max_left _ _
        _ ≤ max (max (l1 * l2) (l1 * u2)) (max (u1 * l2) (u1 * u2)) := le_max_right _ _
  · have hstep : a * b ≤ l1 * b := mul_le_mul_of_nonpos_right h1 hb.le
    rcases le_or_lt 0 l1 with hl | hl
    · have hc : l1 * b ≤ l1 * u2 := mul_le_mul_of_nonneg_left h4 hl
      calc a * b ≤ l1 * u2 := le_trans hstep hc
        _ ≤ max (l1 * l2) (l1 * u2) := le_max_right _ _
        _ ≤ max (max (l1 * l2) (l1 * u2)) (max (u1 * l2) (u1 * u2)) := le_max_left _ _
    · have hc : l1 * b ≤ l1 * l2 := mul_le_mul_of_nonpos_left h3 hl.le
      calc a * b ≤ l1 * l2 := le_trans hstep hc
        _ ≤ max (l1 * l2) (l1 * u2) := le_max_left _ _
        _ ≤ max (max (l1 * l2) (l1 * u2)) (max (u1 * l2) (u1 * u2)) := le_max_left _ _

lemma clamp_mem {MIN MAX : Int} (h : MIN ≤ MAX) (x : Int) :
    MIN ≤ clamp MIN MAX x ∧ clamp MIN MAX x ≤ MAX := by
  simp only [clamp, min_def, max_def]
  split_ifs <;> omega

/-! ### Claim theorems -/

/-- C1 (counterexample): the preservation table registers
`(Positive, plus)` as true, but on a 32-bit signed base type the raw
result computed by `refined_binop` for two positive operands
`INT_MAX, INT_MAX` wraps to `-2`, which is not positive, so the trusted
value returned without re-checking violates its predicate. -/
theorem C1_counterexample :
    preserves PredKey.positive OpKey.plus = true ∧
    Positive (2 ^ 31 - 1) = true ∧
    refined_binop 32 PredKey.positive OpKey.plus (2 ^ 31 - 1) (2 ^ 31 - 1) = some (-2) ∧
    Positive (-2) = false := by
  refine ⟨rfl, by decide, ?_, by decide⟩
  decide

/-- C1 (amended): for every `(P, Op)` pair registered as true in the
preservation table and all operands satisfying `P`, whenever the
mathematical result `Op(a, b)` is representable in the width-`w` base
type, `refined_binop` returns it as a trusted value and it satisfies
`P`. -/
theorem C1_preservation_table_sound_in_range (w : Nat) (pk : PredKey) (opk : OpKey)
    (a b : Int) (hw : 1 ≤ w) (hfact : preserves pk opk = true)
    (ha : predApply pk a = true) (hb : predApply pk b = true)
    (hlo : -(2 ^ (w - 1)) ≤ opApply opk a b) (hhi : opApply opk a b < 2 ^ (w - 1)) :
    refined_binop w pk opk a b = some (opApply opk a b) ∧
    predApply pk (opApply opk a b) = true := by
  have hwrap : wrap w (opApply opk a b) = opApply opk a b := wrap_eq_self hw hlo hhi
  refine ⟨by simp [refined_binop, hfact, hwrap], ?_⟩
  rcases pk with _ | _ | _ <;> rcases opk with _ | _ | _ <;>
    simp only [preserves, Bool.false_eq_true] at hfact <;>
    simp only [predApply, opApply, Positive, NonNegative, decide_eq_true_eq] at ha hb ⊢ <;>
    first
      | omega
      | exact mul_pos ha hb
      | exact mul_nonneg ha hb

/-- C1 (witness): `10 + 20` on positive operands at width 32. -/
theorem C1_witness :
    refined_binop 32 PredKey.positive OpKey.plus 10 20 = some 30 ∧
    Positive 30 = true :=
  C1_preservation_table_sound_in_range 32 PredKey.positive OpKey.plus 10 20
    (by decide) (by decide) (by decide) (by decide) (by decide) (by decide)

/-- C2: interval soundness — for well-formed interval predicates with
representable bounds over an integral base type, whenever the checked
value-level computation of `a+b`, `a-b`, `a*b` or `-a` succeeds, the
computed value lies inside the derived interval (`add_intervals`,
`sub_intervals`, `mul_intervals`, `negate_interval` respectively). -/
theorem C2_interval_soundness (MIN MAX : Int) (I J : IntervalP) (a b v : Int)
    (hmin : MIN < 0) (hmax : 0 < MAX)
    (hIlo : MIN ≤ I.lo) (hIhi : I.hi ≤ MAX) (hIwf : I.lo ≤ I.hi)
    (hJlo : MIN ≤ J.lo) (hJhi : J.hi ≤ MAX) (_hJwf : J.lo ≤ J.hi)
    (haI : I.mem a) (hbJ : J.mem b) :
    (checked_add MIN MAX a b = .ok v → (add_intervals MIN MAX I J).mem v) ∧
    (checked_sub MIN MAX a b = .ok v → (sub_intervals MIN MAX I J).mem v) ∧
    (checked_mul MIN MAX a b = .ok v → (mul_intervals MIN MAX I J).mem v) ∧
    (MIN = -MAX - 1 → interval_neg_value MIN MAX a = .ok v →
      (negate_interval MIN MAX I).mem v) := by
  obtain ⟨ha1, ha2⟩ := haI
  obtain ⟨hb1, hb2⟩ := hbJ
  have haMIN : MIN ≤ a := le_trans hIlo ha1
  have haMAX : a ≤ MAX := le_trans ha2 hIhi
  have hbMIN : MIN ≤ b := le_trans hJlo hb1
  have hbMAX : b ≤ MAX := le_trans hb2 hJhi
  refine ⟨?_, ?_, ?_, ?_⟩
  · -- addition
    intro h
    rw [checked_add_eq haMIN haMAX] at h
    split_ifs at h with h1 h2
    have hv : v = a + b := by
      simpa using h.symm
    subst hv
    constructor
    · show sat_add MIN MAX I.lo J.lo ≤ a + b
      rw [sat_add_eq_clamp hIlo (le_trans hIwf hIhi)]
      exact clamp_le_of_le (add_le_add ha1 hb1) (by omega)
    · show a + b ≤ sat_add MIN MAX I.hi J.hi
      rw [sat_add_eq_clamp (le_trans hIlo hIwf) hIhi]
      exact le_clamp_of_le (add_le_add ha2 hb2) (by omega)
  · -- subtraction
    intro h
    rw [checked_sub_eq haMIN haMAX] at h
    split_ifs at h with h1 h2
    have hv : v = a - b := by
      simpa using h.symm
    subst hv
    constructor
    · show sat_sub MIN MAX I.lo J.hi ≤ a - b
      rw [sat_sub_eq_clamp hIlo (le_trans hIwf hIhi)]
      exact clamp_le_of_le (by omega) (by omega)
    · show a - b ≤ sat_sub MIN MAX I.hi J.lo
      rw [sat_sub_eq_clamp (le_trans hIlo hIwf) hIhi]
      exact le_clamp_of_le (by omega) (by omega)
  · -- multiplication
    intro h
    rw [checked_mul_eq hmin hmax] at h
    split_ifs at h with h1 h2
    have hv : v = a * b := by
      simpa using h.symm
    subst hv
    have hlow := min_corners_le_mul ha1 ha2 hb1 hb2
    have hhigh := mul_le_max_corners ha1 ha2 hb1 hb2
    constructor
    · show min4 (sat_mul MIN MAX I.lo J.lo) (sat_mul MIN MAX I.lo J.hi)
        (sat_mul MIN MAX I.hi J.lo) (sat_mul MIN MAX I.hi J.hi) ≤ a * b
      rw [sat_mul_eq_clamp hmin hmax, sat_mul_eq_clamp hmin hmax,
        sat_mul_eq_clamp hmin hmax, sat_mul_eq_clamp hmin hmax, clamp_min4]
      exact clamp_le_of_le hlow (by omega)
    · show a * b ≤ max4 (sat_mul MIN MAX I.lo J.lo) (sat_mul MIN MAX I.lo J.hi)
        (sat_mul MIN MAX I.hi J.lo) (sat_mul MIN MAX I.hi J.hi)
      rw [sat_mul_eq_clamp hmin hmax, sat_mul_eq_clamp hmin hmax,
        sat_mul_eq_clamp hmin hmax, sat_mul_eq_clamp hmin hmax, clamp_max4]
      exact le_clamp_of_le hhigh (by omega)
  · -- unary negation
    intro hTC h
    rw [interval_neg_value, checked_sub_eq hmin.le hmax.le] at h
    split_ifs at h with h1 h2
    have hv : v = 0 - a := by
      simpa using h.symm
    subst hv
    constructor
    · show sat_neg MIN MAX I.hi ≤ 0 - a
      rw [sat_neg_eq_clamp hTC (le_trans hIlo hIwf) hIhi]
      exact clamp_le_of_le (by omega) (by omega)
    · show 0 - a ≤ sat_neg MIN MAX I.lo
      rw [sat_neg_eq_clamp hTC hIlo (le_trans hIwf hIhi)]
      exact le_clamp_of_le (by omega) (by omega)

/-- C2 (witness): `3 + 5` with both operands in `[0, 10]` on int32 lands
in the derived interval. -/
theorem C2_witness : (add_intervals i32min i32max ⟨0, 10⟩ ⟨0, 10⟩).mem 8 :=
  (C2_interval_soundness i32min i32max ⟨0, 10⟩ ⟨0, 10⟩ 3 5 8
    (by decide) (by decide) (by decide) (by decide) (by decide)
    (by decide) (by decide) (by decide) (by decide) (by decide)).1 rfl

/-- C3 (counterexample): the error raised by checked arithmetic on
overflow and the error raised when a runtime value fails its predicate
are the same error kind — both construct the single exception type
`refinement_error` — so they are not distinct kinds as claimed. -/
theorem C3_counterexample :
    checked_add i32min i32max i32max 1 =
      .error (refinement_error "integer overflow in addition") ∧
    runtime_check Positive (-1) =
      .error (refinement_error "refinement violation") ∧
    (refinement_error "integer overflow in addition").kind =
      (refinement_error "refinement violation").kind :=
  ⟨rfl, rfl, rfl⟩

/-- C3 (amended): every error raised by `checked_add` has the same error
kind (`refinement_error`) as every error raised by a failed runtime
predicate check; the overflow case is distinguishable only by its
message string, never by a distinct error kind. -/
theorem C3_same_error_kind (MIN MAX a b : Int) (e : CppError)
    (h : checked_add MIN MAX a b = .error e) :
    e.kind = ErrKind.refinementError ∧
    (e.msg = "integer overflow in addition" ∨ e.msg = "integer underflow in addition") ∧
    ∀ (P : Int → Bool) (v : Int) (e2 : CppError),
      runtime_check P v = .error e2 → e2.kind = e.kind := by
  have hrc : ∀ (P : Int → Bool) (v : Int) (e2 : CppError),
      runtime_check P v = .error e2 → e2.kind = ErrKind.refinementError := by
    intro P v e2 h2
    unfold runtime_check at h2
    split_ifs at h2
    cases h2
    rfl
  unfold checked_add at h
  split_ifs at h <;> cases h
  · exact ⟨rfl, Or.inl rfl, fun P v e2 h2 => hrc P v e2 h2⟩
  · exact ⟨rfl, Or.inr rfl, fun P v e2 h2 => hrc P v e2 h2⟩

/-- C3 (witness): the overflow error of `INT_MAX + 1` on int32 has the
`refinement_error` kind. -/
theorem C3_witness :
    (refinement_error "integer overflow in addition").kind = ErrKind.refinementError :=
  (C3_same_error_kind i32min i32max i32max 1
    (refinement_error "integer overflow in addition") rfl).1

/-- C4: saturating-vs-checked duality — `checked_add MAX 1` raises an
overflow error while the bound computation for
`Interval<MAX,MAX> + Interval<0,1>` saturates silently to
`Interval<MAX,MAX>`; the `sat_*` bound functions never fail (their
results always stay in the representable range), and the `checked_*`
value functions raise exactly when the mathematical result is
unrepresentable, returning the exact result otherwise. -/
theorem C4_sat_checked_duality (MIN MAX a b : Int)
    (hmin : MIN < 0) (hmax : 0 < MAX) (hTC : MIN = -MAX - 1)
    (ha : MIN ≤ a) (ha' : a ≤ MAX) (_hb : MIN ≤ b) (_hb' : b ≤ MAX) :
    checked_add MIN MAX MAX 1 =
      .error (refinement_error "integer overflow in addition") ∧
    add_intervals MIN MAX ⟨MAX, MAX⟩ ⟨0, 1⟩ = ⟨MAX, MAX⟩ ∧
    (MIN ≤ sat_add MIN MAX a b ∧ sat_add MIN MAX a b ≤ MAX) ∧
    (MIN ≤ sat_sub MIN MAX a b ∧ sat_sub MIN MAX a b ≤ MAX) ∧
    (MIN ≤ sat_mul MIN MAX a b ∧ sat_mul MIN MAX a b ≤ MAX) ∧
    (MIN ≤ sat_neg MIN MAX a ∧ sat_neg MIN MAX a ≤ MAX) ∧
    ((∃ e, checked_add MIN MAX a b = .error e) ↔ (a + b < MIN ∨ MAX < a + b)) ∧
    (∀ v, checked_add MIN MAX a b = .ok v → v = a + b) ∧
    ((∃ e, checked_sub MIN MAX a b = .error e) ↔ (a - b < MIN ∨ MAX < a - b)) ∧
    (∀ v, checked_sub MIN MAX a b = .ok v → v = a - b) ∧
    ((∃ e, checked_mul MIN MAX a b = .error e) ↔ (a * b < MIN ∨ MAX < a * b)) ∧
    (∀ v, checked_mul MIN MAX a b = .ok v → v = a * b) := by
  have hMM : MIN ≤ MAX := by omega
  refine ⟨?_, ?_, ?_, ?_, ?_, ?_, ?_, ?_, ?_, ?_, ?_, ?_⟩
  · rw [checked_add_eq hMM le_rfl, if_pos (by omega)]
  · have h0 : sat_add MIN MAX MAX 0 = MAX := by
      rw [sat_add_eq_clamp hMM le_rfl]
      simp only [clamp, add_zero, min_def, max_def]
      split_ifs <;> omega
    have h1 : sat_add MIN MAX MAX 1 = MAX := by
      rw [sat_add_eq_clamp hMM le_rfl]
      simp only [clamp, min_def, max_def]
      split_ifs <;> omega
    simp [add_intervals, h0, h1]
  · rw [sat_add_eq_clamp ha ha']
    exact clamp_mem hMM _
  · rw [sat_sub_eq_clamp ha ha']
    exact clamp_mem hMM _
  · rw [sat_mul_eq_clamp hmin hmax]
    exact clamp_mem hMM _
  · rw [sat_neg_eq_clamp hTC ha ha']
    exact clamp_mem hMM _
  · rw [checked_add_eq ha ha']
    split_ifs with h1 h2
    · exact iff_of_true ⟨_, rfl⟩ (by omega)
    · exact iff_of_true ⟨_, rfl⟩ (by omega)
    · exact iff_of_false (by simp) (by omega)
  · intro v hv
    rw [checked_add_eq ha ha'] at hv
    split_ifs at hv
    simpa using hv.symm
  · rw [checked_sub_eq ha ha']
    split_ifs with h1 h2
    · exact iff_of_true ⟨_, rfl⟩ (by omega)
    · exact iff_of_true ⟨_, rfl⟩ (by omega)
    · exact iff_of_false (by simp) (by omega)
  · intro v hv
    rw [checked_sub_eq ha ha'] at hv
    split_ifs at hv
    simpa using hv.symm
  · rw [checked_mul_eq hmin hmax]
    split_ifs with h1 h2
    · exact iff_of_true ⟨_, rfl⟩ (by omega)
    · exact iff_of_true ⟨_, rfl⟩ (by omega)
    · exact iff_of_false (by simp) (by omega)
  · intro v hv
    rw [checked_mul_eq hmin hmax] at hv
    split_ifs at hv
    simpa using hv.symm

/-- C4 (witness): int32 with operands `5` and `7`. -/
theorem C4_witness :
    checked_add i32min i32max i32max 1 =
      .error (refinement_error "integer overflow in addition") :=
  (C4_sat_checked_duality i32min i32max 5 7 (by decide) (by decide)
    (by decide) (by decide) (by decide) (by decide) (by decide)).1

/-- C5 (evaluation at the failing inputs): on a 32-bit signed base type,
`abs` at the type's minimum wraps back to the (negative) minimum and
`square(46341)` wraps negative, so the trusted `NonNegative` values
returned by `abs`/`square` violate their predicate on these inputs. -/
theorem C5_overflow_evaluation :
    absImpl 32 (-(2 ^ 31)) = -(2 ^ 31) ∧
    NonNegative (absImpl 32 (-(2 ^ 31))) = false ∧
    squareImpl 32 46341 = -2147479015 ∧
    NonNegative (squareImpl 32 46341) = false := by
  refine ⟨by decide, by decide, by decide, by decide⟩

/-- C7: `mul_intervals` returns the interval whose `lo` is the minimum
and whose `hi` is the maximum of the four saturated corner products;
`Interval<0,10> * Interval<0,10>` yields `Interval<0,100>` and
`Interval<0,10> - Interval<0,10>` yields `Interval<-10,10>` on int32. -/
theorem C7_derived_bound_formulas :
    (∀ (MIN MAX : Int) (I J : IntervalP),
      mul_intervals MIN MAX I J =
        ⟨min (min (sat_mul MIN MAX I.lo J.lo) (sat_mul MIN MAX I.lo J.hi))
             (min (sat_mul MIN MAX I.hi J.lo) (sat_mul MIN MAX I.hi J.hi)),
         max (max (sat_mul MIN MAX I.lo J.lo) (sat_mul MIN MAX I.lo J.hi))
             (max (sat_mul MIN MAX I.hi J.lo) (sat_mul MIN MAX I.hi J.hi))⟩) ∧
    mul_intervals i32min i32max ⟨0, 10⟩ ⟨0, 10⟩ = ⟨0, 100⟩ ∧
    sub_intervals i32min i32max ⟨0, 10⟩ ⟨0, 10⟩ = ⟨-10, 10⟩ := by
  refine ⟨fun MIN MAX I J => ?_, by decide, by decide⟩
  simp [mul_intervals, min4_eq, max4_eq]

/-- C8 (counterexample): the division and modulo operators do not
require the divisor's predicate to exclude zero — a divisor refined by
`NonNegative` (which `0` satisfies) is accepted, and the operation then
divides by zero (undefined behaviour, modelled as `none`). -/
theorem C8_counterexample :
    NonNegative 0 = true ∧
    div_op NonNegative NonNegative 1 0 = none ∧
    mod_op NonNegative NonNegative 1 0 = none := by
  refine ⟨by decide, by decide, by decide⟩

/-- C8 (amended): the operators only require the divisor to be a refined
value under some testable predicate; when that predicate does exclude
zero (as `safe_divide`/`safe_modulo` enforce with `NonZero`), the
operation is total and yields the plain base-type quotient/remainder,
carrying no refinement. -/
theorem C8_division_total_unrefined (NumPred DenomPred : Int → Bool) (n d : Int)
    (hexcl : ∀ v, DenomPred v = true → v ≠ 0) (hd : DenomPred d = true) :
    div_op NumPred DenomPred n d = some (Int.tdiv n d) ∧
    mod_op NumPred DenomPred n d = some (Int.tmod n d) ∧
    (∀ m e, NonZero e = true → safe_divide m e = some (Int.tdiv m e)) ∧
    (∀ m e, NonZero e = true → safe_modulo m e = some (Int.tmod m e)) := by
  have hne : d ≠ 0 := hexcl d hd
  have hnz : ∀ (e : Int), NonZero e = true → e ≠ 0 := by
    intro e he
    simpa [NonZero] using he
  refine ⟨?_, ?_, ?_, ?_⟩
  · simp [div_op, cppDiv, hne]
  · simp [mod_op, cppMod, hne]
  · intro m e he
    simp [safe_divide, cppDiv, hnz e he]
  · intro m e he
    simp [safe_modulo, cppMod, hnz e he]

/-- C8 (witness): `7 / 2` with a `NonZero`-refined divisor. -/
theorem C8_witness : div_op NonNegative NonZero 7 2 = some 3 :=
  (C8_division_total_unrefined NonNegative NonZero 7 2
    (fun v hv => by simpa [NonZero] using hv) (by decide)).1

/-- C9: for floating-point base types the interval operators compute the
value with plain unchecked arithmetic and never raise — the result can
silently land outside the derived (saturated) interval bounds — while
only integral base types go through the raising `checked_*` path. -/
theorem C9_fp_unchecked (mx a b : ℚ) (hmx : 0 < mx) :
    fp_add_value a b = .ok (a + b) ∧
    fp_sub_value a b = .ok (a - b) ∧
    fp_mul_value a b = .ok (a * b) ∧
    fp_neg_value a = .ok (-a) ∧
    (fadd_intervals mx ⟨mx, mx⟩ ⟨mx, mx⟩).hi = mx ∧
    fp_add_value mx mx = .ok (mx + mx) ∧
    mx < mx + mx ∧
    (∃ e, checked_add i32min i32max i32max 1 = .error e) := by
  refine ⟨rfl, rfl, rfl, rfl, ?_, rfl, by linarith, ⟨_, rfl⟩⟩
  show fsat_add mx mx mx = mx
  rw [fsat_add, if_pos ⟨hmx, hmx, by linarith⟩]

/-- C9 (witness): concrete rational instance `mx = 4`, operands `1, 2`. -/
theorem C9_witness :
    fp_add_value (1 : ℚ) 2 = .ok (1 + 2) ∧
    (fadd_intervals 4 ⟨4, 4⟩ ⟨4, 4⟩).hi = 4 ∧
    (4 : ℚ) < 4 + 4 := by
  have h := C9_fp_unchecked 4 1 2 (by norm_num)
  exact ⟨h.1, h.2.2.2.2.1, h.2.2.2.2.2.2.1⟩

/-- C10: `SizeInterval`'s upper bound defaults to the maximum value of
`std::size_t`, so `SizeInterval<Lo>` holds iff the (converted) size is at
least `Lo`, and `SizeInterval<Lo,Hi>` holds iff the size converted to
`size_t` lies in `[Lo, Hi]`. -/
theorem C10_size_interval (Lo Hi : Nat) (s : Int) :
    (SizeIntervalDefault Lo s = true ↔ Lo ≤ to_size_t s) ∧
    (SizeIntervalApp Lo Hi s = true ↔ (Lo ≤ to_size_t s ∧ to_size_t s ≤ Hi)) ∧
    to_size_t s ≤ SIZE_MAX := by
  have hb : to_size_t s ≤ SIZE_MAX := by
    have h1 : 0 ≤ s % (2 ^ 64 : Int) := Int.emod_nonneg s (by norm_num)
    have h2 : s % (2 ^ 64 : Int) < 2 ^ 64 := Int.emod_lt_of_pos s (by norm_num)
    simp only [to_size_t, SIZE_MAX]
    omega
  refine ⟨?_, ?_, hb⟩
  · simp only [SizeIntervalDefault, SizeIntervalApp, Bool.and_eq_true,
      decide_eq_true_eq, ge_iff_le]
    constructor
    · exact fun h => h.1
    · exact fun h => ⟨h, hb⟩
  · simp only [SizeIntervalApp, Bool.and_eq_true, decide_eq_true_eq, ge_iff_le]

end RcppModel
